import Mathlib

/-!
# Verification of the pitch-type vs count analysis pipeline

Shallow embedding of `src/pitch_type_vs_count.py`.  The script builds a
contingency table of `pitch_type` against `count` with `pd.crosstab`,
runs `scipy.stats.chi2_contingency` on it, classifies the season as
dependent/independent at the 0.05 threshold, rounds the residual table to
one decimal, and for each count reports the pitch type whose group mean
`release_speed` is maximal.

Numeric cell values are modelled with `ℚ` (the script's float arithmetic,
made exact); the chi-square distribution's upper-tail probability is the
tail mass of the Gamma(k/2, 1/2) measure on `ℝ`.  String labels are
ordered lexicographically by code point (`strLe`), the order Python uses
when pandas sorts row/column labels and group keys.
-/

set_option maxRecDepth 100000

namespace Verlander

/-- One observed pitch: the columns `pitch_type`, `count`, `release_speed`
of the loaded data frame. -/
structure PitchRecord where
  pitch_type : String
  count : String
  release_speed : ℚ
deriving DecidableEq

/-- Lexicographic comparison of character lists by code point. -/
def strLeAux : List Char → List Char → Bool
  | [], _ => true
  | _ :: _, [] => false
  | a :: as, b :: bs =>
    if a.toNat < b.toNat then true
    else if b.toNat < a.toNat then false
    else strLeAux as bs

/-- Lexicographic order on strings by code point — the order Python uses
to compare strings (and pandas to sort labels). -/
def strLe (a b : String) : Bool := strLeAux a.data b.data

/-- Sorted distinct values, as `pd.crosstab` / `groupby` produce for the
row and column index of a cross-tabulation. -/
def sortedDedup (l : List String) : List String :=
  List.insertionSort (fun a b => strLe a b = true) l.dedup

/-- Row labels of `pd.crosstab(data['pitch_type'], data['count'])`:
sorted distinct pitch types. -/
def crosstab_rows (data : List PitchRecord) : List String :=
  sortedDedup (data.map (fun r => r.pitch_type))

/-- Column labels of the cross-tabulation: sorted distinct counts. -/
def crosstab_cols (data : List PitchRecord) : List String :=
  sortedDedup (data.map (fun r => r.count))

/-- One cell of the cross-tabulation: how many records have the given
pitch type and count. -/
def crosstab_cell (data : List PitchRecord) (p c : String) : ℕ :=
  data.countP (fun r => r.pitch_type == p && r.count == c)

/-- `pd.crosstab(data['pitch_type'], data['count'])` as a row-major matrix
of observed frequencies. -/
def crosstab (data : List PitchRecord) : List (List ℕ) :=
  (crosstab_rows data).map (fun p => (crosstab_cols data).map (fun c => crosstab_cell data p c))

/-- Grand total of a frequency matrix (number of observations). -/
def grandTotal (m : List (List ℕ)) : ℕ := (m.map List.sum).sum

/-- Row total of row `i` (0 outside the matrix). -/
def rowTotal (m : List (List ℕ)) (i : ℕ) : ℕ := (m.getD i []).sum

/-- Column total of column `j` (missing entries count 0). -/
def colTotal (m : List (List ℕ)) (j : ℕ) : ℕ := (m.map (fun row => row.getD j 0)).sum

/-- The vector of column totals, obtained by adding the rows together. -/
def colTotals : List (List ℕ) → List ℕ
  | [] => []
  | [r] => r
  | r :: s :: t => List.zipWith (fun a b => a + b) r (colTotals (s :: t))

/-- `scipy.stats.contingency.expected_freq`: expected cell frequency
`row total * column total / grand total` under independence. -/
def expectedFreq (m : List (List ℕ)) : List (List ℚ) :=
  m.map (fun row => (colTotals m).map
    (fun c => ((row.sum : ℚ) * (Nat.cast c : ℚ)) / (grandTotal m : ℚ)))

/-- Some expected cell is zero (`scipy` raises a `ValueError` then). -/
def HasZeroCell (e : List (List ℚ)) : Prop := ∃ row ∈ e, ∃ x ∈ row, x = 0

instance : DecidablePred HasZeroCell := fun e =>
  decidable_of_iff (∃ row ∈ e, ∃ x ∈ row, x = 0) Iff.rfl

/-- `np.sign` on rationals. -/
def sgn (x : ℚ) : ℚ := if 0 < x then 1 else if x < 0 then -1 else 0

/-- Yates continuity adjustment of one observed cell toward its expected
value, capped at 1/2 (`scipy`'s 2x2 default `correction=True`). -/
def yatesAdjust (o e : ℚ) : ℚ := o + min (1 / 2) |e - o| * sgn (e - o)

/-- Pearson statistic: sum over cells of `(observed - expected)^2 / expected`. -/
def pearsonStat (o e : List (List ℚ)) : ℚ :=
  ((o.zip e).map (fun p => ((p.1.zip p.2).map (fun q => (q.1 - q.2) ^ 2 / q.2)).sum)).sum

/-- Cell-wise Yates adjustment of an observed matrix toward the expected one. -/
def yates (o e : List (List ℚ)) : List (List ℚ) :=
  (o.zip e).map (fun p => (p.1.zip p.2).map (fun q => yatesAdjust q.1 q.2))

/-- A frequency matrix with rational entries. -/
def natMatToRat (m : List (List ℕ)) : List (List ℚ) :=
  m.map (fun row => row.map (fun x => (Nat.cast x : ℚ)))

/-- Result record of `scipy.stats.chi2_contingency` (without the p-value,
which lives in `ℝ` and is derived by `chi2_p`). -/
structure Chi2Result where
  statistic : ℚ
  dof : ℕ
  expected : List (List ℚ)
deriving DecidableEq

/-- The ways `scipy.stats.chi2_contingency` raises `ValueError`. -/
inductive Chi2Error
  | noData
  | zeroExpected
deriving DecidableEq

/-- Shallow embedding of `scipy.stats.chi2_contingency(observed)` with the
default `correction=True`: raises on an empty table or a zero expected
cell; returns statistic 0 (and, via `chi2_p`, p-value 1) when the degrees
of freedom are 0; applies the Yates continuity correction exactly when the
degrees of freedom are 1; otherwise the Pearson statistic. -/
def chi2_contingency (obs : List (List ℕ)) : Except Chi2Error Chi2Result :=
  if obs.length = 0 ∨ (obs.headD []).length = 0 then .error .noData
  else if HasZeroCell (expectedFreq obs) then .error .zeroExpected
  else if (obs.length - 1) * ((obs.headD []).length - 1) = 0 then
    .ok ⟨0, 0, expectedFreq obs⟩
  else if (obs.length - 1) * ((obs.headD []).length - 1) = 1 then
    .ok ⟨pearsonStat (yates (natMatToRat obs) (expectedFreq obs)) (expectedFreq obs),
      (obs.length - 1) * ((obs.headD []).length - 1), expectedFreq obs⟩
  else
    .ok ⟨pearsonStat (natMatToRat obs) (expectedFreq obs),
      (obs.length - 1) * ((obs.headD []).length - 1), expectedFreq obs⟩

/-- The chi-square distribution's upper-tail probability at `x` with `k`
degrees of freedom: the tail mass of the Gamma(k/2, rate 1/2) measure. -/
noncomputable def chi2_sf (k : ℕ) (x : ℝ) : ℝ :=
  (ProbabilityTheory.gammaMeasure ((k : ℝ) / 2) (1 / 2) (Set.Ioi x)).toReal

/-- The p-value `scipy.stats.chi2_contingency` pairs with a result:
1.0 in the degenerate dof = 0 case, otherwise the chi-square upper tail at
the statistic. -/
noncomputable def chi2_p (res : Chi2Result) : ℝ :=
  if res.dof = 0 then 1 else chi2_sf res.dof (res.statistic : ℝ)

/-- `perform_chi2_test`: build the contingency table and run the test,
returning the test result together with the table. -/
def perform_chi2_test (data : List PitchRecord) :
    Except Chi2Error (Chi2Result × List (List ℕ)) :=
  (chi2_contingency (crosstab data)).map (fun r => (r, crosstab data))

/-- The two possible conclusions printed by `analyze_independence`. -/
inductive Conclusion
  | dependent
  | independent
deriving DecidableEq

/-- `analyze_independence`: reject the null hypothesis (classify as
dependent) exactly when `p < 0.05`. -/
noncomputable def analyze_independence (p : ℝ) : Conclusion :=
  if p < 0.05 then .dependent else .independent

/-- Round a rational to the nearest integer, ties to the even integer
(the rounding used by `numpy`/`pandas.DataFrame.round`). -/
def roundHalfEvenInt (x : ℚ) : ℤ :=
  if x - ⌊x⌋ < 1 / 2 then ⌊x⌋
  else if 1 / 2 < x - ⌊x⌋ then ⌊x⌋ + 1
  else if 2 ∣ ⌊x⌋ then ⌊x⌋ else ⌊x⌋ + 1

/-- Round to one decimal place, ties to even (`DataFrame.round(1)`). -/
def round1 (x : ℚ) : ℚ := (roundHalfEvenInt (10 * x) : ℚ) / 10

/-- `calculate_residuals`: `(contingency - expected).round(1)`. -/
def calculate_residuals (contingency : List (List ℕ)) (expected : List (List ℚ)) :
    List (List ℚ) :=
  ((natMatToRat contingency).zip expected).map
    (fun p => (p.1.zip p.2).map (fun q => round1 (q.1 - q.2)))

/-- Group mean of `release_speed` over the records with the given count
and pitch type (`subset.groupby('pitch_type')['release_speed'].mean()`). -/
def meanSpeed (data : List PitchRecord) (c p : String) : ℚ :=
  let xs := (data.filter (fun r => r.count == c && r.pitch_type == p)).map
    (fun r => r.release_speed)
  xs.sum / (xs.length : ℚ)

/-- The group keys of `subset.groupby('pitch_type')`: sorted distinct
pitch types among the records at the given count. -/
def groupKeys (data : List PitchRecord) (c : String) : List String :=
  sortedDedup ((data.filter (fun r => r.count == c)).map (fun r => r.pitch_type))

/-- The series `avg_speeds`: each group key paired with its group mean,
keys in sorted order. -/
def avgSpeeds (data : List PitchRecord) (c : String) : List (String × ℚ) :=
  (groupKeys data c).map (fun p => (p, meanSpeed data c p))

/-- `Series.max`: the maximum value of the series (none when empty). -/
def seriesMax : List (String × ℚ) → Option ℚ
  | [] => none
  | p :: rest =>
    match seriesMax rest with
    | none => some p.2
    | some m => some (max p.2 m)

/-- `Series.idxmax`: the key of the first entry attaining the maximum
value (none when empty, where pandas raises). -/
def seriesIdxmax : List (String × ℚ) → Option String
  | [] => none
  | p :: rest =>
    match seriesMax rest with
    | none => some p.1
    | some m => if p.2 < m then seriesIdxmax rest else some p.1

/-- `most_likely_pitch`: for each column label of the contingency table,
the pitch type with maximal group-mean release speed at that count paired
with that maximal mean (`idxmax` / `max` of the group-mean series); `none`
models the exception pandas raises on an empty series. -/
def most_likely_pitch (cols : List String) (data : List PitchRecord) :
    List (String × Option (String × ℚ)) :=
  cols.map (fun c =>
    (c, match seriesIdxmax (avgSpeeds data c), seriesMax (avgSpeeds data c) with
        | some p, some m => some (p, m)
        | _, _ => none))

/-- A row-major matrix is rectangular with `c` columns. -/
def Rect (m : List (List ℕ)) (c : ℕ) : Prop := ∀ row ∈ m, row.length = c

instance (m : List (List ℕ)) (c : ℕ) : Decidable (Rect m c) :=
  decidable_of_iff (∀ row ∈ m, row.length = c) Iff.rfl

/-- Sum of all cells of a rational matrix. -/
def sumMat (m : List (List ℚ)) : ℚ := (m.map List.sum).sum

/-- The statistic exactly as the specification words it, with no
continuity correction: sum over cells of `(observed - expected)^2 /
expected` with the expected frequencies of the observed table. -/
def spec_statistic (obs : List (List ℕ)) : ℚ :=
  pearsonStat (natMatToRat obs) (expectedFreq obs)

/-- The skewed 2x2 scenario of the spec: FF/0-0: 50, FF/3-2: 10,
SL/0-0: 10, SL/3-2: 50. -/
def skewData : List PitchRecord :=
  List.replicate 50 ⟨"FF", "0-0", 95⟩ ++ List.replicate 10 ⟨"FF", "3-2", 95⟩ ++
  List.replicate 10 ⟨"SL", "0-0", 85⟩ ++ List.replicate 50 ⟨"SL", "3-2", 85⟩

/-- The proportional 2x2 scenario of the spec: all four cells 40. -/
def propData : List PitchRecord :=
  List.replicate 40 ⟨"FF", "0-0", 95⟩ ++ List.replicate 40 ⟨"FF", "3-2", 95⟩ ++
  List.replicate 40 ⟨"SL", "0-0", 85⟩ ++ List.replicate 40 ⟨"SL", "3-2", 85⟩

/-- The most-likely-pitch scenario of the spec: at one count, FF with
speeds 95, 96, 97 and SL with speeds 85, 86. -/
def ffslData : List PitchRecord :=
  [⟨"FF", "0-0", 95⟩, ⟨"FF", "0-0", 96⟩, ⟨"FF", "0-0", 97⟩,
   ⟨"SL", "0-0", 85⟩, ⟨"SL", "0-0", 86⟩]

section Chi2SfFacts

open MeasureTheory ProbabilityTheory Set

open scoped ENNReal NNReal

/-- The gamma pdf, as an `ℝ≥0∞`-valued function, is measurable. -/
lemma gammaPDF_measurable (a r : ℝ) : Measurable (gammaPDF a r) :=
  (measurable_gammaPDFReal a r).ennreal_ofReal

/-- The gamma measure puts no mass on the nonpositive reals. -/
lemma gammaMeasure_Iic_zero (a r : ℝ) : gammaMeasure a r (Iic 0) = 0 := by
  rw [gammaMeasure, withDensity_apply _ measurableSet_Iic,
    ← setLIntegral_congr (Iio_ae_eq_Iic (a := (0 : ℝ)) (μ := volume)),
    lintegral_gammaPDF_of_nonpos le_rfl]

/-- The chi-square upper tail is nonnegative. -/
lemma chi2_sf_nonneg (k : ℕ) (x : ℝ) : 0 ≤ chi2_sf k x := ENNReal.toReal_nonneg

/-- For at least one degree of freedom the chi-square upper tail is at most 1. -/
lemma chi2_sf_le_one {k : ℕ} (hk : 1 ≤ k) (x : ℝ) : chi2_sf k x ≤ 1 := by
  have hk0 : (0 : ℝ) < (k : ℝ) / 2 := by
    have : (0 : ℝ) < (k : ℝ) := by exact_mod_cast hk
    linarith
  have : IsProbabilityMeasure (gammaMeasure ((k : ℝ) / 2) (1 / 2)) :=
    isProbabilityMeasureGamma hk0 (by norm_num)
  have h := prob_le_one (μ := gammaMeasure ((k : ℝ) / 2) (1 / 2)) (s := Ioi x)
  unfold chi2_sf
  calc (gammaMeasure ((k : ℝ) / 2) (1 / 2) (Ioi x)).toReal
      ≤ (1 : ℝ≥0∞).toReal := ENNReal.toReal_mono ENNReal.one_ne_top h
    _ = 1 := ENNReal.one_toReal

/-- The chi-square upper tail at 0 is the whole mass: 1. -/
lemma chi2_sf_zero {k : ℕ} (hk : 1 ≤ k) : chi2_sf k 0 = 1 := by
  have hk0 : (0 : ℝ) < (k : ℝ) / 2 := by
    have : (0 : ℝ) < (k : ℝ) := by exact_mod_cast hk
    linarith
  have hprob : IsProbabilityMeasure (gammaMeasure ((k : ℝ) / 2) (1 / 2)) :=
    isProbabilityMeasureGamma hk0 (by norm_num)
  have hsum := measure_add_measure_compl
    (μ := gammaMeasure ((k : ℝ) / 2) (1 / 2)) (measurableSet_Iic (a := (0 : ℝ)))
  rw [compl_Iic, gammaMeasure_Iic_zero, zero_add, measure_univ] at hsum
  unfold chi2_sf
  rw [hsum, ENNReal.one_toReal]

/-- Tail comparison: past 1, the chi-square(1) density is dominated by the
exponential(1/2) density, so the upper tail is at most `exp (-(x/2))`. -/
lemma chi2_sf_one_le_exp {x : ℝ} (hx : 1 ≤ x) : chi2_sf 1 x ≤ Real.exp (-(x / 2)) := by
  have hx0 : (0 : ℝ) ≤ x := by linarith
  have hr : (0 : ℝ) < 1 / 2 := by norm_num
  have hpt : ∀ t ∈ Ioi x, gammaPDF (1 / 2) (1 / 2) t ≤ exponentialPDF (1 / 2) t := by
    intro t ht
    have ht1 : (1 : ℝ) ≤ t := le_trans hx (le_of_lt ht)
    have ht0 : (0 : ℝ) ≤ t := by linarith
    rw [gammaPDF_of_nonneg ht0, exponentialPDF_of_nonneg ht0]
    apply ENNReal.ofReal_le_ofReal
    have hgam : Real.Gamma (1 / 2) = Real.sqrt Real.pi := Real.Gamma_one_half_eq
    have hsq : ((1 : ℝ) / 2) ^ ((1 : ℝ) / 2) = Real.sqrt (1 / 2) :=
      (Real.sqrt_eq_rpow _).symm
    have hpow : t ^ ((1 : ℝ) / 2 - 1) ≤ 1 :=
      Real.rpow_le_one_of_one_le_of_nonpos ht1 (by norm_num)
    have hpow0 : (0 : ℝ) ≤ t ^ ((1 : ℝ) / 2 - 1) := Real.rpow_nonneg ht0 _
    have hspos : (0 : ℝ) < Real.sqrt Real.pi := Real.sqrt_pos.mpr Real.pi_pos
    have hhalf : Real.sqrt (1 / 2) ≤ Real.sqrt Real.pi / 2 := by
      nlinarith [Real.sq_sqrt (show (0 : ℝ) ≤ 1 / 2 by norm_num),
        Real.sq_sqrt Real.pi_pos.le, Real.sqrt_nonneg ((1 : ℝ) / 2),
        Real.sqrt_nonneg Real.pi, Real.pi_gt_three]
    have hconst : ((1 : ℝ) / 2) ^ ((1 : ℝ) / 2) / Real.Gamma (1 / 2)
        * t ^ ((1 : ℝ) / 2 - 1) ≤ 1 / 2 := by
      rw [hgam, hsq]
      have h1 : Real.sqrt (1 / 2) / Real.sqrt Real.pi * t ^ ((1 : ℝ) / 2 - 1)
          ≤ Real.sqrt (1 / 2) / Real.sqrt Real.pi * 1 := by
        apply mul_le_mul_of_nonneg_left hpow
        positivity
      have h2 : Real.sqrt (1 / 2) / Real.sqrt Real.pi ≤ 1 / 2 := by
        rw [div_le_iff hspos]
        nlinarith [Real.sqrt_nonneg Real.pi]
      calc Real.sqrt (1 / 2) / Real.sqrt Real.pi * t ^ ((1 : ℝ) / 2 - 1)
          ≤ Real.sqrt (1 / 2) / Real.sqrt Real.pi * 1 := h1
        _ = Real.sqrt (1 / 2) / Real.sqrt Real.pi := mul_one _
        _ ≤ 1 / 2 := h2
    have hexp : (0 : ℝ) < Real.exp (-(1 / 2 * t)) := Real.exp_pos _
    exact mul_le_mul_of_nonneg_right hconst hexp.le
  have hmono : (∫⁻ t in Ioi x, gammaPDF (1 / 2) (1 / 2) t)
      ≤ ∫⁻ t in Ioi x, exponentialPDF (1 / 2) t :=
    setLIntegral_mono ((measurable_exponentialPDFReal (1 / 2)).ennreal_ofReal) hpt
  have hIic : (∫⁻ t in Iic x, exponentialPDF (1 / 2) t)
      = ENNReal.ofReal (1 - Real.exp (-(x / 2))) := by
    rw [lintegral_exponentialPDF_eq_antiDeriv hr x, if_pos hx0]
    congr 2
    ring
  have htot : (∫⁻ t in Iic x, exponentialPDF (1 / 2) t)
      + (∫⁻ t in Ioi x, exponentialPDF (1 / 2) t) = 1 := by
    rw [← compl_Iic, lintegral_add_compl _ measurableSet_Iic]
    exact lintegral_exponentialPDF_eq_one hr
  have hexple : Real.exp (-(x / 2)) ≤ 1 := by
    rw [Real.exp_le_one_iff]
    linarith
  have hsplit : ENNReal.ofReal (1 - Real.exp (-(x / 2)))
      + ENNReal.ofReal (Real.exp (-(x / 2))) = 1 := by
    rw [← ENNReal.ofReal_add (by linarith) (Real.exp_pos _).le]
    norm_num
  have hIoi : (∫⁻ t in Ioi x, exponentialPDF (1 / 2) t)
      = ENNReal.ofReal (Real.exp (-(x / 2))) := by
    rw [hIic] at htot
    rw [← hsplit] at htot
    exact (ENNReal.add_right_inj ENNReal.ofReal_ne_top).mp htot
  unfold chi2_sf
  rw [show ((1 : ℕ) : ℝ) / 2 = 1 / 2 by norm_num, gammaMeasure,
    withDensity_apply _ measurableSet_Ioi]
  calc (∫⁻ t in Ioi x, gammaPDF (1 / 2) (1 / 2) t).toReal
      ≤ (ENNReal.ofReal (Real.exp (-(x / 2)))).toReal := by
        apply ENNReal.toReal_mono ENNReal.ofReal_ne_top
        rw [← hIoi]
        exact hmono
    _ = Real.exp (-(x / 2)) := ENNReal.toReal_ofReal (Real.exp_pos _).le

/-- `exp 4` exceeds 40. -/
lemma exp_four_gt_forty : (40 : ℝ) < Real.exp 4 := by
  have h := Real.exp_one_gt_d9
  have h4 : (2.7182818283 : ℝ) ^ (4 : ℕ) ≤ (Real.exp 1) ^ (4 : ℕ) :=
    pow_le_pow_left (by norm_num) h.le 4
  have hexp : Real.exp 4 = (Real.exp 1) ^ (4 : ℕ) := by
    rw [← Real.exp_nat_mul]
    norm_num
  rw [hexp]
  calc (40 : ℝ) < (2.7182818283 : ℝ) ^ (4 : ℕ) := by norm_num
    _ ≤ (Real.exp 1) ^ (4 : ℕ) := h4

/-- The chi-square(1) upper tail at the skewed-table statistic 50.7 is
far below the 0.05 threshold. -/
lemma chi2_sf_skew_lt : chi2_sf 1 ((507 : ℝ) / 10) < 0.05 := by
  have h1 : chi2_sf 1 ((507 : ℝ) / 10) ≤ Real.exp (-(507 / 10 / 2)) :=
    chi2_sf_one_le_exp (by norm_num)
  have h40 : (40 : ℝ) < Real.exp (507 / 20) := by
    calc (40 : ℝ) < Real.exp 4 := exp_four_gt_forty
      _ ≤ Real.exp (507 / 20) := Real.exp_le_exp.mpr (by norm_num)
  have h2 : Real.exp (-(507 / 10 / 2 : ℝ)) < 0.05 := by
    rw [show -(507 / 10 / 2 : ℝ) = -(507 / 20) by norm_num, Real.exp_neg,
      inv_eq_one_div, show (0.05 : ℝ) = 1 / 20 by norm_num,
      div_lt_div_iff (Real.exp_pos _) (by norm_num)]
    linarith
  linarith

end Chi2SfFacts

section StrOrder

/-- Unfolding of the lexicographic comparison on a cons pair. -/
lemma strLeAux_cons_iff {x y : Char} {xs ys : List Char} :
    strLeAux (x :: xs) (y :: ys) = true ↔
      x.toNat < y.toNat ∨ (x.toNat = y.toNat ∧ strLeAux xs ys = true) := by
  simp only [strLeAux]
  split_ifs with h1 h2
  · simp [h1]
  · constructor
    · intro h
      cases h
    · intro h
      rcases h with h | ⟨he, _⟩
      · omega
      · omega
  · have hxy : x.toNat = y.toNat := by omega
    simp [hxy]

/-- The lexicographic comparison is reflexive. -/
lemma strLeAux_refl (l : List Char) : strLeAux l l = true := by
  induction l with
  | nil => rfl
  | cons a as ih => simp [strLeAux_cons_iff, ih]

/-- The lexicographic comparison is total. -/
lemma strLeAux_total (a b : List Char) : strLeAux a b = true ∨ strLeAux b a = true := by
  induction a generalizing b with
  | nil => exact Or.inl rfl
  | cons x xs ih =>
    cases b with
    | nil => exact Or.inr rfl
    | cons y ys =>
      rcases lt_trichotomy x.toNat y.toNat with h | h | h
      · exact Or.inl (strLeAux_cons_iff.mpr (Or.inl h))
      · rcases ih ys with h2 | h2
        · exact Or.inl (strLeAux_cons_iff.mpr (Or.inr ⟨h, h2⟩))
        · exact Or.inr (strLeAux_cons_iff.mpr (Or.inr ⟨h.symm, h2⟩))
      · exact Or.inr (strLeAux_cons_iff.mpr (Or.inl h))

/-- The lexicographic comparison is transitive. -/
lemma strLeAux_trans : ∀ (a b c : List Char), strLeAux a b = true → strLeAux b c = true →
    strLeAux a c = true
  | [], _, _, _, _ => rfl
  | _ :: _, [], _, h, _ => by simp [strLeAux] at h
  | _ :: _, _ :: _, [], _, h2 => by simp [strLeAux] at h2
  | x :: xs, y :: ys, z :: zs, h1, h2 => by
    rw [strLeAux_cons_iff] at h1 h2 ⊢
    rcases h1 with h1 | ⟨h1e, h1r⟩ <;> rcases h2 with h2 | ⟨h2e, h2r⟩
    · exact Or.inl (lt_trans h1 h2)
    · exact Or.inl (h2e ▸ h1)
    · exact Or.inl (h1e ▸ h2)
    · exact Or.inr ⟨h1e.trans h2e, strLeAux_trans xs ys zs h1r h2r⟩

/-- `strLe` is reflexive. -/
lemma strLe_refl (s : String) : strLe s s = true := strLeAux_refl s.data

instance : IsTotal String (fun a b => strLe a b = true) :=
  ⟨fun a b => strLeAux_total a.data b.data⟩

instance : IsTrans String (fun a b => strLe a b = true) :=
  ⟨fun a b c => strLeAux_trans a.data b.data c.data⟩

/-- Membership is preserved by sorting and deduplication. -/
lemma mem_sortedDedup {l : List String} {x : String} : x ∈ sortedDedup l ↔ x ∈ l := by
  unfold sortedDedup
  rw [(List.perm_insertionSort _ _).mem_iff, List.mem_dedup]

/-- The sorted deduplicated label list has no duplicates. -/
lemma nodup_sortedDedup (l : List String) : (sortedDedup l).Nodup :=
  (List.perm_insertionSort _ _).nodup_iff.mpr (List.nodup_dedup l)

/-- The label list is sorted by the lexicographic order. -/
lemma sorted_sortedDedup (l : List String) :
    (sortedDedup l).Pairwise (fun a b => strLe a b = true) :=
  List.sorted_insertionSort _ _

end StrOrder

section Counting

/-- Summing an equality indicator over a duplicate-free list containing
the value gives exactly 1. -/
lemma sum_map_indicator {L : List String} (hnd : L.Nodup) {v : String} (hv : v ∈ L) :
    (L.map (fun c => if v = c then (1 : ℕ) else 0)).sum = 1 := by
  induction L with
  | nil => cases hv
  | cons a t ih =>
    rcases List.mem_cons.mp hv with h | h
    · subst h
      have hz : (t.map (fun c => if v = c then (1 : ℕ) else 0)).sum = 0 := by
        apply List.sum_eq_zero
        intro x hx
        rcases List.mem_map.mp hx with ⟨c, hc, rfl⟩
        rw [if_neg]
        intro he
        exact (List.nodup_cons.mp hnd).1 (he ▸ hc)
      simp [hz]
    · have hne : v ≠ a := by
        rintro rfl
        exact (List.nodup_cons.mp hnd).1 h
      simp only [List.map_cons, List.sum_cons, if_neg hne, Nat.zero_add]
      exact ih (List.nodup_cons.mp hnd).2 h

/-- Distributing a sum over a pointwise sum of maps. -/
lemma sum_map_add {α : Type} (L : List α) (f g : α → ℕ) :
    (L.map (fun c => f c + g c)).sum = (L.map f).sum + (L.map g).sum := by
  induction L with
  | nil => rfl
  | cons a t ih =>
    simp only [List.map_cons, List.sum_cons, ih]
    omega

/-- Partitioning a filtered count along a duplicate-free list of keys that
covers the image of the selected records. -/
lemma countP_partition (data : List PitchRecord) (P : PitchRecord → Bool)
    (g : PitchRecord → String) (L : List String) (hnd : L.Nodup)
    (hcov : ∀ r ∈ data, P r = true → g r ∈ L) :
    (L.map (fun c => data.countP (fun r => P r && (g r == c)))).sum = data.countP P := by
  induction data with
  | nil => simp [List.countP_nil, List.sum_eq_zero]
  | cons r d ih =>
    have hcov2 : ∀ x ∈ d, P x = true → g x ∈ L := fun x hx => hcov x (List.mem_cons_of_mem r hx)
    simp only [List.countP_cons]
    rw [show (L.map (fun c => d.countP (fun x => P x && (g x == c))
          + if (P r && (g r == c)) = true then 1 else 0)).sum
        = (L.map (fun c => d.countP (fun x => P x && (g x == c)))).sum
          + (L.map (fun c => if (P r && (g r == c)) = true then 1 else 0)).sum
      from sum_map_add L _ _]
    rw [ih hcov2]
    congr 1
    cases hP : P r with
    | true =>
      have hg : g r ∈ L := hcov r (List.mem_cons_self r d) hP
      have hmap : L.map (fun c => if (true && (g r == c)) = true then (1 : ℕ) else 0)
          = L.map (fun c => if g r = c then (1 : ℕ) else 0) := by
        apply List.map_congr_left
        intro c _
        simp [beq_iff_eq]
      rw [hmap, sum_map_indicator hnd hg, if_pos rfl]
    | false =>
      rw [if_neg (by simp)]
      apply List.sum_eq_zero
      intro x hx
      rcases List.mem_map.mp hx with ⟨c, _, rfl⟩
      simp

end Counting

section CrosstabFacts

/-- Every record's count appears among the crosstab column labels. -/
lemma count_mem_cols {data : List PitchRecord} {r : PitchRecord} (h : r ∈ data) :
    r.count ∈ crosstab_cols data := by
  unfold crosstab_cols
  rw [mem_sortedDedup]
  exact List.mem_map_of_mem _ h

/-- Every record's pitch type appears among the crosstab row labels. -/
lemma pitch_mem_rows {data : List PitchRecord} {r : PitchRecord} (h : r ∈ data) :
    r.pitch_type ∈ crosstab_rows data := by
  unfold crosstab_rows
  rw [mem_sortedDedup]
  exact List.mem_map_of_mem _ h

/-- Summing one crosstab row gives the marginal count of its pitch type. -/
lemma crosstab_rowsum (data : List PitchRecord) (p : String) :
    ((crosstab_cols data).map (fun c => crosstab_cell data p c)).sum
      = data.countP (fun r => r.pitch_type == p) := by
  unfold crosstab_cell
  exact countP_partition data (fun r => r.pitch_type == p) (fun r => r.count)
    (crosstab_cols data) (nodup_sortedDedup _) (fun r hr _ => count_mem_cols hr)

/-- Summing one crosstab column gives the marginal count of its count label. -/
lemma crosstab_colsum (data : List PitchRecord) (c : String) :
    ((crosstab_rows data).map (fun p => crosstab_cell data p c)).sum
      = data.countP (fun r => r.count == c) := by
  unfold crosstab_cell
  have h := countP_partition data (fun r => r.count == c) (fun r => r.pitch_type)
    (crosstab_rows data) (nodup_sortedDedup _) (fun r hr _ => pitch_mem_rows hr)
  rw [← h]
  congr 1
  apply List.map_congr_left
  intro p _
  apply List.countP_congr
  intro r _
  simp [Bool.and_comm]

/-- The crosstab cells sum to the number of records. -/
lemma crosstab_grandTotal (data : List PitchRecord) :
    grandTotal (crosstab data) = data.length := by
  unfold grandTotal crosstab
  rw [List.map_map]
  have h1 : (crosstab_rows data).map
        (List.sum ∘ fun p => (crosstab_cols data).map (fun c => crosstab_cell data p c))
      = (crosstab_rows data).map (fun p => data.countP (fun r => r.pitch_type == p)) :=
    List.map_congr_left (fun p _ => crosstab_rowsum data p)
  rw [h1]
  have h2 := countP_partition data (fun _ => true) (fun r => r.pitch_type)
    (crosstab_rows data) (nodup_sortedDedup _) (fun r hr _ => pitch_mem_rows hr)
  have h3 : (crosstab_rows data).map (fun p => data.countP (fun r => r.pitch_type == p))
      = (crosstab_rows data).map
          (fun p => data.countP (fun r => (fun _ => true) r && (r.pitch_type == p))) := by
    apply List.map_congr_left
    intro p _
    apply List.countP_congr
    intro r _
    simp
  rw [h3, h2, List.countP_true]

/-- Reading an in-bounds entry of a mapped list through `getD`. -/
lemma getD_map_lt {α β : Type} (f : α → β) {l : List α} {j : ℕ} (hj : j < l.length)
    (d : β) (d2 : α) : (l.map f).getD j d = f (l.getD j d2) := by
  rw [List.getD_eq_getElem _ _ (by simpa using hj), List.getD_eq_getElem _ _ hj,
    List.getElem_map]

/-- An in-bounds row of the crosstab is the cell map of its row label. -/
lemma crosstab_row (data : List PitchRecord) {i : ℕ} (hi : i < (crosstab_rows data).length) :
    (crosstab data).getD i []
      = (crosstab_cols data).map
          (fun c => crosstab_cell data ((crosstab_rows data).getD i "") c) := by
  unfold crosstab
  rw [getD_map_lt _ hi [] ""]

end CrosstabFacts

section ExpectedFacts

/-- A zipWith-sum splits into the two sums when lengths agree. -/
lemma sum_zipWith_add : ∀ (a b : List ℕ), a.length = b.length →
    (List.zipWith (fun x y => x + y) a b).sum = a.sum + b.sum
  | [], [], _ => rfl
  | [], _ :: _, h => by simp at h
  | _ :: _, [], h => by simp at h
  | x :: xs, y :: ys, h => by
    simp only [List.zipWith_cons_cons, List.sum_cons]
    rw [sum_zipWith_add xs ys (by simpa using h)]
    omega

/-- A rectangular matrix's column-totals vector has one entry per column. -/
lemma colTotals_length : ∀ {m : List (List ℕ)} {c : ℕ}, m ≠ [] → Rect m c →
    (colTotals m).length = c
  | [], _, h, _ => absurd rfl h
  | [r], _, _, hrect => by
    simpa [colTotals] using hrect r (by simp)
  | r :: s :: t, c, _, hrect => by
    have h1 : r.length = c := hrect r (by simp)
    have h2 : (colTotals (s :: t)).length = c :=
      colTotals_length (by simp) (fun row hrow => hrect row (List.mem_cons_of_mem r hrow))
    rw [colTotals, List.length_zipWith, h1, h2, min_self]

/-- The column totals sum to the grand total. -/
lemma colTotals_sum : ∀ {m : List (List ℕ)} {c : ℕ}, Rect m c →
    (colTotals m).sum = grandTotal m
  | [], _, _ => rfl
  | [r], _, _ => by simp [colTotals, grandTotal]
  | r :: s :: t, c, hrect => by
    have hrect2 : Rect (s :: t) c := fun row hrow => hrect row (List.mem_cons_of_mem r hrow)
    have h1 : r.length = c := hrect r (by simp)
    have h2 : (colTotals (s :: t)).length = c := colTotals_length (by simp) hrect2
    rw [colTotals, sum_zipWith_add _ _ (by omega), colTotals_sum hrect2]
    simp [grandTotal]

/-- In-bounds entries of the column-totals vector are the column sums. -/
lemma colTotals_getD : ∀ {m : List (List ℕ)} {c : ℕ}, Rect m c → ∀ {j : ℕ}, j < c →
    (colTotals m).getD j 0 = colTotal m j
  | [], _, _, _, _ => by simp [colTotals, colTotal]
  | [r], _, _, j, _ => by simp [colTotals, colTotal]
  | r :: s :: t, c, hrect, j, hj => by
    have hrect2 : Rect (s :: t) c := fun row hrow => hrect row (List.mem_cons_of_mem r hrow)
    have h1 : r.length = c := hrect r (by simp)
    have h2 : (colTotals (s :: t)).length = c := colTotals_length (by simp) hrect2
    rw [colTotals, List.getD_eq_getElem _ _ (by rw [List.length_zipWith]; omega),
      List.getElem_zipWith]
    rw [← List.getD_eq_getElem r (0 : ℕ) (by omega),
      ← List.getD_eq_getElem (colTotals (s :: t)) (0 : ℕ) (by omega),
      colTotals_getD hrect2 hj]
    simp [colTotal]

/-- Factoring the row-dependent scalar out of one expected row's sum. -/
lemma sum_map_mul_div (L : List ℕ) (a N : ℚ) :
    (L.map (fun x => a * (Nat.cast x : ℚ) / N)).sum
      = a * ((L.map (fun x => (Nat.cast x : ℚ))).sum) / N := by
  induction L with
  | nil => simp
  | cons x t ih =>
    simp only [List.map_cons, List.sum_cons, ih]
    ring

/-- Sum of the rational casts of a list of naturals. -/
lemma sum_map_cast (L : List ℕ) : (L.map (fun x => (Nat.cast x : ℚ))).sum = (L.sum : ℚ) := by
  induction L with
  | nil => simp
  | cons x t ih => rw [List.map_cons, List.sum_cons, ih, List.sum_cons, Nat.cast_add]

/-- Summing the cast row sums gives the cast grand total. -/
lemma sum_map_sum_cast (m : List (List ℕ)) :
    (m.map (fun row => (Nat.cast row.sum : ℚ))).sum = (grandTotal m : ℚ) := by
  induction m with
  | nil => simp [grandTotal]
  | cons r t ih =>
    simp only [List.map_cons, List.sum_cons, ih]
    have h : grandTotal (r :: t) = r.sum + grandTotal t := by simp [grandTotal]
    rw [h, Nat.cast_add]

/-- The expected-frequency table of a rectangular observed table with a
nonzero grand total carries the same total mass as the observed table. -/
lemma sumMat_expectedFreq {m : List (List ℕ)} {c : ℕ} (hrect : Rect m c)
    (hN : grandTotal m ≠ 0) : sumMat (expectedFreq m) = (grandTotal m : ℚ) := by
  have hN2 : ((grandTotal m : ℚ)) ≠ 0 := Nat.cast_ne_zero.mpr hN
  unfold sumMat expectedFreq
  rw [List.map_map]
  have hcol : ((colTotals m).map (fun x => (Nat.cast x : ℚ))).sum = (grandTotal m : ℚ) := by
    rw [sum_map_cast, colTotals_sum hrect]
  have h1 : m.map (List.sum ∘ fun row => (colTotals m).map
        (fun ct => ((row.sum : ℚ) * (Nat.cast ct : ℚ)) / (grandTotal m : ℚ)))
      = m.map (fun row => (Nat.cast row.sum : ℚ)) := by
    apply List.map_congr_left
    intro row _
    simp only [Function.comp_apply]
    rw [sum_map_mul_div, hcol, mul_div_assoc, div_self hN2, mul_one]
  rw [h1]
  exact sum_map_sum_cast m

/-- The rational cast of the observed table sums to the grand total. -/
lemma sumMat_natMatToRat (m : List (List ℕ)) : sumMat (natMatToRat m) = (grandTotal m : ℚ) := by
  unfold sumMat natMatToRat
  rw [List.map_map]
  have h1 : m.map (List.sum ∘ fun row => row.map (fun x => (Nat.cast x : ℚ)))
      = m.map (fun row => (Nat.cast row.sum : ℚ)) := by
    apply List.map_congr_left
    intro row _
    simp only [Function.comp_apply]
    exact sum_map_cast row
  rw [h1]
  exact sum_map_sum_cast m

end ExpectedFacts

section SeriesFacts

/-- Unfolding `seriesMax` on a cons. -/
lemma seriesMax_cons (a : String × ℚ) (t : List (String × ℚ)) :
    seriesMax (a :: t) = match seriesMax t with
      | none => some a.2
      | some m => some (max a.2 m) := rfl

/-- Unfolding `seriesIdxmax` on a cons. -/
lemma seriesIdxmax_cons (a : String × ℚ) (t : List (String × ℚ)) :
    seriesIdxmax (a :: t) = match seriesMax t with
      | none => some a.1
      | some m => if a.2 < m then seriesIdxmax t else some a.1 := rfl

/-- `seriesMax` is `none` exactly on the empty series. -/
lemma seriesMax_none_iff : ∀ {l : List (String × ℚ)}, seriesMax l = none ↔ l = []
  | [] => by simp [seriesMax]
  | a :: t => by
    rw [seriesMax_cons]
    cases h : seriesMax t <;> simp

/-- `seriesIdxmax` is `none` exactly on the empty series. -/
lemma seriesIdxmax_none_iff : ∀ {l : List (String × ℚ)}, seriesIdxmax l = none ↔ l = []
  | [] => by simp [seriesIdxmax]
  | a :: t => by
    rw [seriesIdxmax_cons]
    cases h : seriesMax t with
    | none => simp
    | some mt =>
      show (if a.2 < mt then seriesIdxmax t else some a.1) = none ↔ a :: t = []
      by_cases hlt : a.2 < mt
      · rw [if_pos hlt]
        have ht : t ≠ [] := by
          intro he
          rw [he] at h
          cases h
        simp [seriesIdxmax_none_iff (l := t), ht]
      · rw [if_neg hlt]
        simp

/-- Every series value is at most the series maximum. -/
lemma seriesMax_ge : ∀ {l : List (String × ℚ)} {m : ℚ}, seriesMax l = some m →
    ∀ q ∈ l, q.2 ≤ m
  | [], _, _, q, hq => by cases hq
  | a :: t, m, h, q, hq => by
    rw [seriesMax_cons] at h
    cases h2 : seriesMax t with
    | none =>
      have ht : t = [] := seriesMax_none_iff.mp h2
      rw [h2] at h
      have hm : a.2 = m := Option.some.inj h
      subst ht
      rcases List.mem_cons.mp hq with rfl | hq2
      · exact le_of_eq hm
      · cases hq2
    | some mt =>
      rw [h2] at h
      have hm : max a.2 mt = m := Option.some.inj h
      rcases List.mem_cons.mp hq with rfl | hq2
      · calc q.2 ≤ max q.2 mt := le_max_left _ _
          _ = m := hm
      · calc q.2 ≤ mt := seriesMax_ge h2 q hq2
          _ ≤ max a.2 mt := le_max_right _ _
          _ = m := hm

/-- The key returned by `idxmax` is paired with the maximum value in the
series: `idxmax` and `max` are mutually consistent. -/
lemma seriesIdxmax_pair : ∀ {l : List (String × ℚ)} {p : String} {m : ℚ},
    seriesIdxmax l = some p → seriesMax l = some m → (p, m) ∈ l
  | [], _, _, hp, _ => by cases hp
  | a :: t, p, m, hp, hm => by
    rw [seriesIdxmax_cons] at hp
    rw [seriesMax_cons] at hm
    cases h2 : seriesMax t with
    | none =>
      rw [h2] at hp hm
      have hp2 : a.1 = p := Option.some.inj hp
      have hm2 : a.2 = m := Option.some.inj hm
      rw [← hp2, ← hm2, Prod.mk.eta]
      exact List.mem_cons_self a t
    | some mt =>
      rw [h2] at hp hm
      change (if a.2 < mt then seriesIdxmax t else some a.1) = some p at hp
      have hmax : max a.2 mt = m := Option.some.inj hm
      by_cases hlt : a.2 < mt
      · rw [if_pos hlt] at hp
        have hmt : mt = m := by rw [← hmax, max_eq_right hlt.le]
        exact List.mem_cons_of_mem a (seriesIdxmax_pair hp (hmt ▸ h2))
      · rw [if_neg hlt] at hp
        have hp2 : a.1 = p := Option.some.inj hp
        have ha2 : a.2 = m := by rw [← hmax, max_eq_left (not_lt.mp hlt)]
        rw [← hp2, ← ha2, Prod.mk.eta]
        exact List.mem_cons_self a t

/-- On a series whose keys are sorted, `idxmax` returns the first — hence
lexicographically least — key among those attaining the maximum. -/
lemma seriesIdxmax_least : ∀ {l : List (String × ℚ)},
    l.Pairwise (fun a b => strLe a.1 b.1 = true) → ∀ {p : String} {m : ℚ},
    seriesIdxmax l = some p → seriesMax l = some m →
    ∀ q ∈ l, m ≤ q.2 → strLe p q.1 = true
  | [], _, _, _, _, _, q, hq, _ => by cases hq
  | a :: t, hsort, p, m, hp, hm, q, hq, hle => by
    rw [seriesIdxmax_cons] at hp
    rw [seriesMax_cons] at hm
    cases h2 : seriesMax t with
    | none =>
      have ht : t = [] := seriesMax_none_iff.mp h2
      rw [h2] at hp
      have hp2 : a.1 = p := Option.some.inj hp
      subst ht
      rcases List.mem_cons.mp hq with rfl | h3
      · rw [← hp2]
        exact strLe_refl _
      · cases h3
    | some mt =>
      rw [h2] at hp hm
      change (if a.2 < mt then seriesIdxmax t else some a.1) = some p at hp
      have hmax : max a.2 mt = m := Option.some.inj hm
      by_cases hlt : a.2 < mt
      · rw [if_pos hlt] at hp
        have hmt : mt = m := by rw [← hmax, max_eq_right hlt.le]
        rcases List.mem_cons.mp hq with rfl | h3
        · exfalso
          rw [← hmt] at hle
          exact absurd (lt_of_le_of_lt hle hlt) (lt_irrefl _)
        · exact seriesIdxmax_least (List.pairwise_cons.mp hsort).2 hp (hmt ▸ h2) q h3 hle
      · rw [if_neg hlt] at hp
        have hp2 : a.1 = p := Option.some.inj hp
        rcases List.mem_cons.mp hq with rfl | h3
        · rw [← hp2]
          exact strLe_refl _
        · rw [← hp2]
          exact (List.pairwise_cons.mp hsort).1 q h3

/-- Membership in the group-mean series. -/
lemma avgSpeeds_mem {data : List PitchRecord} {c : String} {q : String} {t : ℚ} :
    (q, t) ∈ avgSpeeds data c ↔ q ∈ groupKeys data c ∧ t = meanSpeed data c q := by
  unfold avgSpeeds
  constructor
  · intro h
    rcases List.mem_map.mp h with ⟨p, hp, he⟩
    injection he with he1 he2
    subst he1
    subst he2
    exact ⟨hp, rfl⟩
  · rintro ⟨h1, rfl⟩
    exact List.mem_map_of_mem _ h1

/-- The group-mean series is sorted by its keys. -/
lemma avgSpeeds_sorted (data : List PitchRecord) (c : String) :
    (avgSpeeds data c).Pairwise (fun a b => strLe a.1 b.1 = true) := by
  unfold avgSpeeds
  exact List.Pairwise.map _ (fun a b h => h) (sorted_sortedDedup _)

end SeriesFacts

section RoundFacts

/-- Half-to-even integer rounding moves a rational by at most 1/2. -/
lemma abs_roundHalfEvenInt_sub (x : ℚ) : |(roundHalfEvenInt x : ℚ) - x| ≤ 1 / 2 := by
  have h0 : (⌊x⌋ : ℚ) ≤ x := Int.floor_le x
  have h1 : x < ⌊x⌋ + 1 := Int.lt_floor_add_one x
  unfold roundHalfEvenInt
  split_ifs with hc1 hc2 hc3 <;> rw [abs_le] <;> push_cast <;> constructor <;> linarith

/-- Rounding to one decimal moves a rational by at most 1/20 = 0.05. -/
lemma abs_round1_sub (x : ℚ) : |round1 x - x| ≤ 1 / 20 := by
  unfold round1
  have h := abs_roundHalfEvenInt_sub (10 * x)
  have h10 : |(roundHalfEvenInt (10 * x) : ℚ) / 10 - x|
      = |(roundHalfEvenInt (10 * x) : ℚ) - 10 * x| / 10 := by
    rw [show (roundHalfEvenInt (10 * x) : ℚ) / 10 - x
        = ((roundHalfEvenInt (10 * x) : ℚ) - 10 * x) / 10 by ring, abs_div]
    norm_num
  rw [h10]
  linarith

/-- Reading an in-bounds entry of a zip through `getD`. -/
lemma getD_zip_lt {α β : Type} {a : List α} {b : List β} {i : ℕ}
    (ha : i < a.length) (hb : i < b.length) (da : α) (db : β) :
    (a.zip b).getD i (da, db) = (a.getD i da, b.getD i db) := by
  rw [List.getD_eq_getElem _ _ (by rw [List.length_zip]; omega),
    List.getD_eq_getElem _ _ ha, List.getD_eq_getElem _ _ hb, List.getElem_zip]

/-- Reading one cell of a cell-wise zip of two matrices. -/
lemma matZipMap_getD (f : ℚ → ℚ → ℚ) (a b : List (List ℚ)) {i j : ℕ}
    (hi1 : i < a.length) (hi2 : i < b.length)
    (hj1 : j < (a.getD i []).length) (hj2 : j < (b.getD i []).length) :
    (((a.zip b).map (fun p => (p.1.zip p.2).map (fun q => f q.1 q.2))).getD i []).getD j 0
      = f ((a.getD i []).getD j 0) ((b.getD i []).getD j 0) := by
  have h1 : ((a.zip b).map (fun p => (p.1.zip p.2).map (fun q => f q.1 q.2))).getD i []
      = ((a.getD i []).zip (b.getD i [])).map (fun q => f q.1 q.2) := by
    rw [getD_map_lt _ (by rw [List.length_zip]; omega) [] ([], []),
      getD_zip_lt hi1 hi2 [] []]
  rw [h1, getD_map_lt _ (by rw [List.length_zip]; omega) 0 (0, 0), getD_zip_lt hj1 hj2 0 0]

/-- Each in-bounds residual cell is the rounded difference of the
observed and expected cells. -/
lemma calculate_residuals_cell (contingency : List (List ℕ)) (expected : List (List ℚ))
    {i j : ℕ} (hi1 : i < contingency.length) (hi2 : i < expected.length)
    (hj1 : j < (contingency.getD i []).length) (hj2 : j < (expected.getD i []).length) :
    ((calculate_residuals contingency expected).getD i []).getD j 0
      = round1 ((Nat.cast ((contingency.getD i []).getD j 0) : ℚ)
          - (expected.getD i []).getD j 0) := by
  have hlen : (natMatToRat contingency).length = contingency.length := by
    simp [natMatToRat]
  have hrow : (natMatToRat contingency).getD i []
      = (contingency.getD i []).map (fun x => (Nat.cast x : ℚ)) := by
    unfold natMatToRat
    rw [getD_map_lt _ hi1 [] []]
  unfold calculate_residuals
  rw [matZipMap_getD (fun a b => round1 (a - b)) _ _ (by omega) hi2
    (by rw [hrow, List.length_map]; omega) hj2, hrow, getD_map_lt _ hj1 (0 : ℚ) 0]

end RoundFacts

section ConcreteTables

/-- The skewed scenario's cross-tabulation. -/
lemma crosstab_skew : crosstab skewData = [[50, 10], [10, 50]] := by decide

/-- The proportional scenario's cross-tabulation. -/
lemma crosstab_prop : crosstab propData = [[40, 40], [40, 40]] := by decide

/-- The test on the skewed table: Yates-corrected statistic 50.7, one
degree of freedom, all expected cells 30. -/
lemma chi2_skew : chi2_contingency [[50, 10], [10, 50]]
    = .ok ⟨507 / 10, 1, [[30, 30], [30, 30]]⟩ := by
  norm_num [chi2_contingency, expectedFreq, colTotals, grandTotal, HasZeroCell,
    natMatToRat, yates, yatesAdjust, pearsonStat, sgn, min_def, abs]

/-- The test on the proportional table: statistic 0, one degree of
freedom, expected equal to observed. -/
lemma chi2_prop : chi2_contingency [[40, 40], [40, 40]]
    = .ok ⟨0, 1, [[40, 40], [40, 40]]⟩ := by
  norm_num [chi2_contingency, expectedFreq, colTotals, grandTotal, HasZeroCell,
    natMatToRat, yates, yatesAdjust, pearsonStat, sgn, min_def, abs]

/-- The spec-worded (uncorrected) statistic of the skewed table. -/
lemma spec_statistic_skew : spec_statistic [[50, 10], [10, 50]] = 160 / 3 := by
  norm_num [spec_statistic, expectedFreq, colTotals, grandTotal, natMatToRat, pearsonStat]

end ConcreteTables

section Chi2Structure

/-- An in-bounds cell of the expected table is
row total times column total over grand total. -/
lemma expectedFreq_cell {obs : List (List ℕ)} {nc : ℕ} (hrect : Rect obs nc)
    {i j : ℕ} (hi : i < obs.length) (hj : j < nc) :
    ((expectedFreq obs).getD i []).getD j 0
      = ((rowTotal obs i : ℚ) * (colTotal obs j : ℚ)) / (grandTotal obs : ℚ) := by
  have hne : obs ≠ [] := by
    intro h
    subst h
    simp at hi
  have hlen : (colTotals obs).length = nc := colTotals_length hne hrect
  unfold expectedFreq
  rw [getD_map_lt _ hi [] [], getD_map_lt _ (by omega) (0 : ℚ) 0, colTotals_getD hrect hj]
  rfl

end Chi2Structure

/-- **C1 (counterexample)**: on the 2x2 table {FF/0-0: 50, FF/3-2: 10,
SL/0-0: 10, SL/3-2: 50} the statistic computed by the code (50.7, with
Yates continuity correction, scipy's 2x2 default) differs from the plain
sum over cells of (observed − expected)²/expected (160/3 ≈ 53.33) that
the claim states. -/
theorem C1_counterexample :
    chi2_contingency [[50, 10], [10, 50]] = .ok ⟨507 / 10, 1, [[30, 30], [30, 30]]⟩ ∧
    (507 / 10 : ℚ) ≠ spec_statistic [[50, 10], [10, 50]] := by
  refine ⟨chi2_skew, ?_⟩
  rw [spec_statistic_skew]
  norm_num

/-- **C1 (amended)**: for every rectangular contingency table with at
least 2 rows and 2 columns and no zero expected cell, the test succeeds;
each expected cell is (row total × column total)/grand total; the degrees
of freedom are (rows − 1) × (columns − 1); the statistic is the plain sum
of (observed−expected)²/expected except when the degrees of freedom are 1
(the 2×2 case), where each observed value is first moved toward its
expected value by min(1/2, |expected−observed|) (Yates continuity
correction); the p-value is the chi-square upper tail at the statistic and
the degrees of freedom. -/
theorem C1_amended (obs : List (List ℕ)) (nc : ℕ)
    (hrect : Rect obs nc) (h2r : 2 ≤ obs.length) (h2c : 2 ≤ nc)
    (hz : ¬ HasZeroCell (expectedFreq obs)) :
    ∃ res, chi2_contingency obs = .ok res ∧
      res.expected = expectedFreq obs ∧
      (∀ i j, i < obs.length → j < nc →
        ((res.expected.getD i []).getD j 0)
          = ((rowTotal obs i : ℚ) * (colTotal obs j : ℚ)) / (grandTotal obs : ℚ)) ∧
      res.dof = (obs.length - 1) * (nc - 1) ∧
      res.statistic = (if (obs.length - 1) * (nc - 1) = 1
        then pearsonStat (yates (natMatToRat obs) (expectedFreq obs)) (expectedFreq obs)
        else spec_statistic obs) ∧
      chi2_p res = chi2_sf ((obs.length - 1) * (nc - 1)) ((res.statistic : ℚ) : ℝ) := by
  have hne : obs ≠ [] := by
    intro h
    rw [h] at h2r
    simp at h2r
  have hhead : (obs.headD []).length = nc := by
    cases obs with
    | nil => exact absurd rfl hne
    | cons r t => exact hrect r (List.mem_cons_self r t)
  have hc1 : ¬ (obs.length = 0 ∨ (obs.headD []).length = 0) := by
    rw [hhead]
    omega
  have hdof0 : (obs.length - 1) * (nc - 1) ≠ 0 :=
    Nat.mul_ne_zero (by omega) (by omega)
  unfold chi2_contingency
  rw [if_neg hc1, if_neg hz, hhead, if_neg hdof0]
  by_cases h1 : (obs.length - 1) * (nc - 1) = 1
  · rw [if_pos h1]
    refine ⟨_, rfl, rfl, fun i j hi hj => expectedFreq_cell hrect hi hj, rfl, ?_, ?_⟩
    · rw [if_pos h1]
    · show (if (obs.length - 1) * (nc - 1) = 0 then (1 : ℝ) else _) = _
      rw [if_neg hdof0]
  · rw [if_neg h1]
    refine ⟨_, rfl, rfl, fun i j hi hj => expectedFreq_cell hrect hi hj, rfl, ?_, ?_⟩
    · rw [if_neg h1]
      rfl
    · show (if (obs.length - 1) * (nc - 1) = 0 then (1 : ℝ) else _) = _
      rw [if_neg hdof0]

/-- Witness for **C1 (amended)** at the skewed 2×2 table. -/
theorem C1_amended_witness :
    ∃ res, chi2_contingency [[50, 10], [10, 50]] = .ok res ∧
      res.expected = expectedFreq [[50, 10], [10, 50]] ∧
      (∀ i j, i < ([[50, 10], [10, 50]] : List (List ℕ)).length → j < 2 →
        ((res.expected.getD i []).getD j 0)
          = ((rowTotal [[50, 10], [10, 50]] i : ℚ) * (colTotal [[50, 10], [10, 50]] j : ℚ))
            / (grandTotal [[50, 10], [10, 50]] : ℚ)) ∧
      res.dof = (([[50, 10], [10, 50]] : List (List ℕ)).length - 1) * (2 - 1) ∧
      res.statistic = (if (([[50, 10], [10, 50]] : List (List ℕ)).length - 1) * (2 - 1) = 1
        then pearsonStat (yates (natMatToRat [[50, 10], [10, 50]])
          (expectedFreq [[50, 10], [10, 50]])) (expectedFreq [[50, 10], [10, 50]])
        else spec_statistic [[50, 10], [10, 50]]) ∧
      chi2_p res = chi2_sf ((([[50, 10], [10, 50]] : List (List ℕ)).length - 1) * (2 - 1))
        ((res.statistic : ℚ) : ℝ) :=
  C1_amended [[50, 10], [10, 50]] 2 (by decide) (by norm_num) (by norm_num)
    (by norm_num [HasZeroCell, expectedFreq, colTotals, grandTotal])

/-- **C3**: the conclusion is "dependent" (null hypothesis rejected)
exactly when p < 0.05, and "independent" otherwise; the function depends
on nothing but the p-value, with 0.05 a fixed constant. -/
theorem C3_threshold :
    ∀ p : ℝ, (analyze_independence p = Conclusion.dependent ↔ p < 0.05) ∧
      (analyze_independence p = Conclusion.independent ↔ ¬ p < 0.05) := by
  intro p
  unfold analyze_independence
  by_cases h : p < 0.05
  · rw [if_pos h]
    exact ⟨⟨fun _ => h, fun _ => rfl⟩,
      ⟨fun he => Conclusion.noConfusion he, fun hn => absurd h hn⟩⟩
  · rw [if_neg h]
    exact ⟨⟨fun he => Conclusion.noConfusion he, fun hlt => absurd hlt h⟩,
      ⟨fun _ => h, fun _ => rfl⟩⟩

/-- Witness for **C3** at p = 0.01. -/
theorem C3_threshold_witness :
    (analyze_independence 0.01 = Conclusion.dependent ↔ (0.01 : ℝ) < 0.05) ∧
    (analyze_independence 0.01 = Conclusion.independent ↔ ¬ (0.01 : ℝ) < 0.05) :=
  C3_threshold 0.01

/-- **C5**: every in-bounds cell of the residual table is the observed
minus expected difference rounded to one decimal (ties to even), hence
within 1/20 = 0.05 of the true difference. -/
theorem C5_residuals (contingency : List (List ℕ)) (expected : List (List ℚ))
    (i j : ℕ) (hi1 : i < contingency.length) (hi2 : i < expected.length)
    (hj1 : j < (contingency.getD i []).length) (hj2 : j < (expected.getD i []).length) :
    ((calculate_residuals contingency expected).getD i []).getD j 0
      = round1 ((Nat.cast ((contingency.getD i []).getD j 0) : ℚ)
          - (expected.getD i []).getD j 0) ∧
    |((calculate_residuals contingency expected).getD i []).getD j 0
      - ((Nat.cast ((contingency.getD i []).getD j 0) : ℚ)
          - (expected.getD i []).getD j 0)| ≤ 1 / 20 := by
  have h := calculate_residuals_cell contingency expected hi1 hi2 hj1 hj2
  refine ⟨h, ?_⟩
  rw [h]
  exact abs_round1_sub _

/-- Witness for **C5** at cell (0,0) of the skewed table. -/
theorem C5_residuals_witness :
    ((calculate_residuals [[50, 10], [10, 50]] [[30, 30], [30, 30]]).getD 0 []).getD 0 0
      = round1 ((Nat.cast ((([[50, 10], [10, 50]] : List (List ℕ)).getD 0 []).getD 0 0) : ℚ)
          - (([[30, 30], [30, 30]] : List (List ℚ)).getD 0 []).getD 0 0) ∧
    |((calculate_residuals [[50, 10], [10, 50]] [[30, 30], [30, 30]]).getD 0 []).getD 0 0
      - ((Nat.cast ((([[50, 10], [10, 50]] : List (List ℕ)).getD 0 []).getD 0 0) : ℚ)
          - (([[30, 30], [30, 30]] : List (List ℚ)).getD 0 []).getD 0 0)| ≤ 1 / 20 :=
  C5_residuals [[50, 10], [10, 50]] [[30, 30], [30, 30]] 0 0
    (by norm_num) (by norm_num) (by norm_num) (by norm_num)

/-- **C6 (counterexample)**: a 1×2 table (fewer than 2 rows) with no zero
expected cell does not make the test fail — it succeeds with statistic 0,
0 degrees of freedom and p-value 1. -/
theorem C6_counterexample :
    chi2_contingency [[3, 4]] = .ok ⟨0, 0, [[3, 4]]⟩ ∧
    chi2_p ⟨0, 0, [[3, 4]]⟩ = 1 := by
  constructor
  · norm_num [chi2_contingency, expectedFreq, colTotals, grandTotal, HasZeroCell, natMatToRat]
  · unfold chi2_p
    norm_num

/-- **C6 (amended)**: on a nonempty rectangular table the test fails
exactly when some expected cell frequency is zero; a degenerate table
(fewer than 2 rows or fewer than 2 columns) with no zero expected cell
does not fail: the test returns statistic 0, 0 degrees of freedom, and
p-value 1. -/
theorem C6_amended (obs : List (List ℕ)) (nc : ℕ) (hrect : Rect obs nc)
    (hne : obs.length ≠ 0) (hnc : nc ≠ 0) :
    ((∃ err, chi2_contingency obs = .error err) ↔ HasZeroCell (expectedFreq obs)) ∧
    (obs.length < 2 ∨ nc < 2 → ¬ HasZeroCell (expectedFreq obs) →
      chi2_contingency obs = .ok ⟨0, 0, expectedFreq obs⟩ ∧
      chi2_p ⟨0, 0, expectedFreq obs⟩ = 1) := by
  have hhead : (obs.headD []).length = nc := by
    cases obs with
    | nil => simp at hne
    | cons r t => exact hrect r (List.mem_cons_self r t)
  have hc1 : ¬ (obs.length = 0 ∨ (obs.headD []).length = 0) := by
    rw [hhead]
    omega
  constructor
  · constructor
    · rintro ⟨err, herr⟩
      by_contra hz
      unfold chi2_contingency at herr
      rw [if_neg hc1, if_neg hz] at herr
      split_ifs at herr
    · intro hz
      refine ⟨.zeroExpected, ?_⟩
      unfold chi2_contingency
      rw [if_neg hc1, if_pos hz]
  · intro hdeg hz
    have hdof : (obs.length - 1) * ((obs.headD []).length - 1) = 0 := by
      rw [hhead]
      rcases hdeg with h | h
      · rw [show obs.length - 1 = 0 by omega, Nat.zero_mul]
      · rw [show nc - 1 = 0 by omega, Nat.mul_zero]
    constructor
    · unfold chi2_contingency
      rw [if_neg hc1, if_neg hz, if_pos hdof]
    · unfold chi2_p
      norm_num

/-- Witness for **C6 (amended)** at the 1×2 table [[3, 4]]. -/
theorem C6_amended_witness :
    ((∃ err, chi2_contingency [[3, 4]] = .error err)
      ↔ HasZeroCell (expectedFreq [[3, 4]])) ∧
    (([[3, 4]] : List (List ℕ)).length < 2 ∨ 2 < 2 →
      ¬ HasZeroCell (expectedFreq [[3, 4]]) →
      chi2_contingency [[3, 4]] = .ok ⟨0, 0, expectedFreq [[3, 4]]⟩ ∧
      chi2_p ⟨0, 0, expectedFreq [[3, 4]]⟩ = 1) :=
  C6_amended [[3, 4]] 2 (by decide) (by decide) (by decide)

/-- **C7**: every crosstab cell is nonnegative, each row sum is the
marginal count of its pitch type, each column sum is the marginal count of
its count label, and the sum of all cells is the number of input records. -/
theorem C7_contingency_invariants (data : List PitchRecord) :
    (∀ row ∈ crosstab data, ∀ x ∈ row, 0 ≤ x) ∧
    (∀ i, i < (crosstab_rows data).length →
      rowTotal (crosstab data) i
        = data.countP (fun r => r.pitch_type == (crosstab_rows data).getD i "")) ∧
    (∀ j, j < (crosstab_cols data).length →
      colTotal (crosstab data) j
        = data.countP (fun r => r.count == (crosstab_cols data).getD j "")) ∧
    grandTotal (crosstab data) = data.length := by
  refine ⟨fun row _ x _ => Nat.zero_le x, ?_, ?_, crosstab_grandTotal data⟩
  · intro i hi
    unfold rowTotal
    rw [crosstab_row data hi]
    exact crosstab_rowsum data _
  · intro j hj
    unfold colTotal crosstab
    rw [List.map_map]
    have h1 : (crosstab_rows data).map ((fun row => row.getD j 0)
          ∘ fun p => (crosstab_cols data).map (fun c => crosstab_cell data p c))
        = (crosstab_rows data).map
            (fun p => crosstab_cell data p ((crosstab_cols data).getD j "")) := by
      apply List.map_congr_left
      intro p _
      simp only [Function.comp_apply]
      rw [getD_map_lt _ hj 0 ""]
    rw [h1]
    exact crosstab_colsum data _

/-- Witness for **C7** on the FF/SL scenario data. -/
theorem C7_witness :
    rowTotal (crosstab ffslData) 0
      = ffslData.countP (fun r => r.pitch_type == (crosstab_rows ffslData).getD 0 "") ∧
    colTotal (crosstab ffslData) 0
      = ffslData.countP (fun r => r.count == (crosstab_cols ffslData).getD 0 "") ∧
    grandTotal (crosstab ffslData) = ffslData.length :=
  ⟨(C7_contingency_invariants ffslData).2.1 0 (by decide),
   (C7_contingency_invariants ffslData).2.2.1 0 (by decide),
   (C7_contingency_invariants ffslData).2.2.2⟩

/-- **C8**: for a rectangular table with records present, the expected
frequencies sum to the same total as the observed frequencies (exactly in
exact arithmetic, hence within the 1e-6 tolerance the claim allows). -/
theorem C8_expected_mass (obs : List (List ℕ)) (c : ℕ) (hrect : Rect obs c)
    (hN : grandTotal obs ≠ 0) :
    |sumMat (expectedFreq obs) - sumMat (natMatToRat obs)| ≤ 1 / 1000000 := by
  rw [sumMat_expectedFreq hrect hN, sumMat_natMatToRat, sub_self, abs_zero]
  norm_num

/-- Witness for **C8** at the skewed table. -/
theorem C8_expected_mass_witness :
    |sumMat (expectedFreq [[50, 10], [10, 50]]) - sumMat (natMatToRat [[50, 10], [10, 50]])|
      ≤ 1 / 1000000 :=
  C8_expected_mass [[50, 10], [10, 50]] 2 (by decide) (by decide)

section ScenarioFFSL

/-- The column labels of the FF/SL scenario. -/
lemma crosstab_cols_ffsl : crosstab_cols ffslData = ["0-0"] := by decide

/-- The group keys at count 0-0 in the FF/SL scenario. -/
lemma groupKeys_ffsl : groupKeys ffslData "0-0" = ["FF", "SL"] := by decide

/-- Mean FF speed in the scenario: (95+96+97)/3 = 96. -/
lemma meanSpeed_ffsl_FF : meanSpeed ffslData "0-0" "FF" = 96 := by
  have hf : ffslData.filter (fun r => r.count == "0-0" && r.pitch_type == "FF")
      = [⟨"FF", "0-0", 95⟩, ⟨"FF", "0-0", 96⟩, ⟨"FF", "0-0", 97⟩] := by decide
  unfold meanSpeed
  rw [hf]
  norm_num

/-- Mean SL speed in the scenario: (85+86)/2 = 85.5. -/
lemma meanSpeed_ffsl_SL : meanSpeed ffslData "0-0" "SL" = 171 / 2 := by
  have hf : ffslData.filter (fun r => r.count == "0-0" && r.pitch_type == "SL")
      = [⟨"SL", "0-0", 85⟩, ⟨"SL", "0-0", 86⟩] := by decide
  unfold meanSpeed
  rw [hf]
  norm_num

/-- The group-mean series of the scenario. -/
lemma avgSpeeds_ffsl : avgSpeeds ffslData "0-0" = [("FF", 96), ("SL", 171 / 2)] := by
  unfold avgSpeeds
  rw [groupKeys_ffsl, List.map_cons, List.map_cons, List.map_nil,
    meanSpeed_ffsl_FF, meanSpeed_ffsl_SL]

/-- The series maximum of the scenario is 96. -/
lemma seriesMax_ffsl : seriesMax [("FF", (96 : ℚ)), ("SL", 171 / 2)] = some 96 := by
  have h1 : seriesMax [("SL", (171 : ℚ) / 2)] = some (171 / 2) := rfl
  rw [seriesMax_cons, h1]
  show some (max (96 : ℚ) (171 / 2)) = some 96
  rw [max_eq_left (by norm_num)]

/-- The series argmax of the scenario is FF. -/
lemma seriesIdxmax_ffsl : seriesIdxmax [("FF", (96 : ℚ)), ("SL", 171 / 2)] = some "FF" := by
  have h1 : seriesMax [("SL", (171 : ℚ) / 2)] = some (171 / 2) := rfl
  rw [seriesIdxmax_cons, h1]
  show (if (96 : ℚ) < 171 / 2 then seriesIdxmax [("SL", (171 : ℚ) / 2)] else some "FF")
    = some "FF"
  rw [if_neg (by norm_num)]

/-- The full scenario output: count 0-0 maps to (FF, 96.0). -/
lemma most_likely_ffsl :
    most_likely_pitch (crosstab_cols ffslData) ffslData = [("0-0", some ("FF", 96))] := by
  rw [crosstab_cols_ffsl]
  unfold most_likely_pitch
  rw [List.map_cons, List.map_nil]
  congr 1
  rw [avgSpeeds_ffsl, seriesIdxmax_ffsl, seriesMax_ffsl]

/-- A `most_likely_pitch` entry carrying a value decomposes into the
`idxmax` and `max` of the group-mean series at that count. -/
lemma most_likely_some {cols : List String} {data : List PitchRecord} {c p : String} {s : ℚ}
    (h : (c, some (p, s)) ∈ most_likely_pitch cols data) :
    c ∈ cols ∧ seriesIdxmax (avgSpeeds data c) = some p
      ∧ seriesMax (avgSpeeds data c) = some s := by
  unfold most_likely_pitch at h
  rcases List.mem_map.mp h with ⟨c2, hc2, he⟩
  injection he with he1 he2
  subst he1
  cases hidx : seriesIdxmax (avgSpeeds data c2) with
  | none =>
    rw [hidx] at he2
    cases hmax : seriesMax (avgSpeeds data c2) <;> rw [hmax] at he2 <;> simp at he2
  | some p2 =>
    cases hmax : seriesMax (avgSpeeds data c2) with
    | none =>
      rw [hidx, hmax] at he2
      simp at he2
    | some m2 =>
      rw [hidx, hmax] at he2
      have h3 : (p2, m2) = (p, s) := Option.some.inj he2
      injection h3 with h4 h5
      subst h4
      subst h5
      exact ⟨hc2, rfl, rfl⟩

end ScenarioFFSL

/-- **C2**: the estimator emits exactly one entry per distinct count
present in the data (the contingency columns, without duplicates); for
each such count it returns a pitch type observed at that count together
with that type's group-mean release speed, maximal among all pitch types
observed at that count; and on the FF [95,96,97] / SL [85,86] scenario it
returns ("FF", 96.0). -/
theorem C2_most_likely (data : List PitchRecord) :
    ((most_likely_pitch (crosstab_cols data) data).map Prod.fst = crosstab_cols data ∧
      (crosstab_cols data).Nodup ∧
      (∀ c, c ∈ crosstab_cols data ↔ c ∈ data.map (fun r => r.count))) ∧
    (∀ c, c ∈ crosstab_cols data →
      ∃ p s, (c, some (p, s)) ∈ most_likely_pitch (crosstab_cols data) data ∧
        p ∈ groupKeys data c ∧ s = meanSpeed data c p ∧
        ∀ q ∈ groupKeys data c, meanSpeed data c q ≤ s) ∧
    most_likely_pitch (crosstab_cols ffslData) ffslData = [("0-0", some ("FF", 96))] := by
  refine ⟨⟨?_, nodup_sortedDedup _, fun c => mem_sortedDedup⟩, ?_, most_likely_ffsl⟩
  · unfold most_likely_pitch
    rw [List.map_map]
    have h0 : ∀ (L : List String) (f : String → String × Option (String × ℚ)),
        (∀ c, (f c).1 = c) → L.map (Prod.fst ∘ f) = L := by
      intro L f hf
      calc L.map (Prod.fst ∘ f) = L.map (fun c => c) :=
            List.map_congr_left (fun c _ => hf c)
        _ = L := List.map_id' L
    exact h0 _ _ (fun c => rfl)
  · intro c hc
    rcases List.mem_map.mp (mem_sortedDedup.mp hc) with ⟨r, hr, hrc⟩
    have hg : r.pitch_type ∈ groupKeys data c := by
      unfold groupKeys
      rw [mem_sortedDedup]
      apply List.mem_map_of_mem
      apply List.mem_filter.mpr
      exact ⟨hr, by rw [beq_iff_eq]; exact hrc⟩
    have hgne : avgSpeeds data c ≠ [] := by
      unfold avgSpeeds
      intro he
      rw [List.map_eq_nil] at he
      rw [he] at hg
      cases hg
    obtain ⟨m, hmax⟩ : ∃ m, seriesMax (avgSpeeds data c) = some m := by
      cases hsm : seriesMax (avgSpeeds data c) with
      | none => exact absurd (seriesMax_none_iff.mp hsm) hgne
      | some m => exact ⟨m, rfl⟩
    obtain ⟨p, hidx⟩ : ∃ p, seriesIdxmax (avgSpeeds data c) = some p := by
      cases hsm : seriesIdxmax (avgSpeeds data c) with
      | none => exact absurd (seriesIdxmax_none_iff.mp hsm) hgne
      | some p => exact ⟨p, rfl⟩
    refine ⟨p, m, ?_, (avgSpeeds_mem.mp (seriesIdxmax_pair hidx hmax)).1,
      (avgSpeeds_mem.mp (seriesIdxmax_pair hidx hmax)).2, ?_⟩
    · have hment : (c, (match seriesIdxmax (avgSpeeds data c), seriesMax (avgSpeeds data c) with
          | some p, some m => some (p, m)
          | _, _ => (none : Option (String × ℚ))))
          ∈ most_likely_pitch (crosstab_cols data) data :=
        List.mem_map_of_mem _ hc
      rw [hidx, hmax] at hment
      exact hment
    · intro q hq
      exact seriesMax_ge hmax (q, meanSpeed data c q) (avgSpeeds_mem.mpr ⟨hq, rfl⟩)

/-- Witness for **C2** at the FF/SL scenario, count 0-0. -/
theorem C2_most_likely_witness :
    ∃ p s, ("0-0", some (p, s)) ∈ most_likely_pitch (crosstab_cols ffslData) ffslData ∧
      p ∈ groupKeys ffslData "0-0" ∧ s = meanSpeed ffslData "0-0" p ∧
      ∀ q ∈ groupKeys ffslData "0-0", meanSpeed ffslData "0-0" q ≤ s :=
  (C2_most_likely ffslData).2.1 "0-0" (by decide)

/-- **C9**: the estimator is a pure function (equal inputs give equal
outputs), and the tie-break is deterministic: the returned pitch type for
a count is lexicographically least among the group keys attaining the
returned (maximal) mean — in particular the same single type is chosen
whenever two types tie. -/
theorem C9_deterministic :
    (∀ (cols cols2 : List String) (data data2 : List PitchRecord),
      cols = cols2 → data = data2 →
      most_likely_pitch cols data = most_likely_pitch cols2 data2) ∧
    (∀ (data : List PitchRecord) (c p : String) (s : ℚ),
      (c, some (p, s)) ∈ most_likely_pitch (crosstab_cols data) data →
      ∀ q ∈ groupKeys data c, meanSpeed data c q = s → strLe p q = true) := by
  constructor
  · rintro cols cols2 data data2 rfl rfl
    rfl
  · intro data c p s h q hq hqs
    obtain ⟨-, hidx, hmax⟩ := most_likely_some h
    exact seriesIdxmax_least (avgSpeeds_sorted data c) hidx hmax
      (q, meanSpeed data c q) (avgSpeeds_mem.mpr ⟨hq, rfl⟩) (le_of_eq hqs.symm)

/-- Witness for **C9** at the FF/SL scenario. -/
theorem C9_deterministic_witness :
    most_likely_pitch ["0-0"] ffslData = most_likely_pitch ["0-0"] ffslData ∧
    strLe "FF" "FF" = true :=
  ⟨C9_deterministic.1 ["0-0"] ["0-0"] ffslData ffslData rfl rfl,
   C9_deterministic.2 ffslData "0-0" "FF" 96
     (by rw [most_likely_ffsl]; exact List.mem_singleton.mpr rfl)
     "FF" (by decide) meanSpeed_ffsl_FF⟩

/-- **C10**: the speed in each returned pair is the group-mean release
speed of the returned pitch type at that count — the pair is internally
consistent. -/
theorem C10_pair_consistent (cols : List String) (data : List PitchRecord)
    (c p : String) (s : ℚ)
    (h : (c, some (p, s)) ∈ most_likely_pitch cols data) :
    s = meanSpeed data c p := by
  obtain ⟨-, hidx, hmax⟩ := most_likely_some h
  exact (avgSpeeds_mem.mp (seriesIdxmax_pair hidx hmax)).2

/-- Witness for **C10** at the FF/SL scenario. -/
theorem C10_pair_consistent_witness : (96 : ℚ) = meanSpeed ffslData "0-0" "FF" :=
  C10_pair_consistent (crosstab_cols ffslData) ffslData "0-0" "FF" 96
    (by rw [most_likely_ffsl]; exact List.mem_singleton.mpr rfl)

/-- **C4**: the pipeline on the skewed 50/10/10/50 data yields the table
[[50,10],[10,50]], a p-value below 0.05 and the conclusion "dependent";
on the proportional all-40 data it yields [[40,40],[40,40]], p-value
exactly 1 and the conclusion "independent". -/
theorem C4_scenarios :
    (∃ res, perform_chi2_test skewData = .ok (res, [[50, 10], [10, 50]]) ∧
      chi2_p res < 0.05 ∧ analyze_independence (chi2_p res) = Conclusion.dependent) ∧
    (∃ res, perform_chi2_test propData = .ok (res, [[40, 40], [40, 40]]) ∧
      chi2_p res = 1 ∧ analyze_independence (chi2_p res) = Conclusion.independent) := by
  constructor
  · have hpe : perform_chi2_test skewData
        = .ok (⟨507 / 10, 1, [[30, 30], [30, 30]]⟩, [[50, 10], [10, 50]]) := by
      unfold perform_chi2_test
      rw [crosstab_skew, chi2_skew]
      rfl
    have hp : chi2_p ⟨507 / 10, 1, [[30, 30], [30, 30]]⟩ < 0.05 := by
      show (if (1 : ℕ) = 0 then (1 : ℝ) else chi2_sf 1 (((507 : ℚ) / 10 : ℚ) : ℝ)) < 0.05
      rw [if_neg one_ne_zero,
        show (((507 : ℚ) / 10 : ℚ) : ℝ) = (507 : ℝ) / 10 by push_cast; ring]
      exact chi2_sf_skew_lt
    exact ⟨_, hpe, hp, by unfold analyze_independence; rw [if_pos hp]⟩
  · have hpe : perform_chi2_test propData
        = .ok (⟨0, 1, [[40, 40], [40, 40]]⟩, [[40, 40], [40, 40]]) := by
      unfold perform_chi2_test
      rw [crosstab_prop, chi2_prop]
      rfl
    have hp : chi2_p ⟨0, 1, [[40, 40], [40, 40]]⟩ = 1 := by
      show (if (1 : ℕ) = 0 then (1 : ℝ) else chi2_sf 1 (((0 : ℚ) : ℚ) : ℝ)) = 1
      rw [if_neg one_ne_zero, show (((0 : ℚ) : ℚ) : ℝ) = 0 by push_cast; ring]
      exact chi2_sf_zero le_rfl
    refine ⟨_, hpe, hp, ?_⟩
    rw [hp]
    unfold analyze_independence
    rw [if_neg (by norm_num)]

end Verlander
